import Mathlib

/-!
Verification development for the pyUSBtin driver (fishpepper/pyUSBtin).

Shallow embedding of the core components named by the specification:
the CAN frame codec (`canmessage.py`), the transmit queue and receive
dispatch (`usbtin.py`), the bit-timing search, and the filter/mask
register mapper.  Python integers are modelled as `Nat`/`Int` (Python
ints are arbitrary precision), Python floats in the bit-timing search
are modelled exactly over `ℚ`, and fallible Python code (exceptions)
returns `Except String`.
-/

/-! ### CAN frame data model (canmessage.py, class CANMessage)

The signal table `CANMessage.dbc_info` is empty unless `load_dbc` was
called; the codec claims are all about the dbc-free paths, so the
embedding models `__init__`/`from_string` with an empty `dbc_info`
(every `self.mid in self.dbc_info` test is False).  Signal get/set
(`__getattribute__`/`__setattr__`) are modelled separately as pure
functions on the packed payload, parameterised by one table entry. -/

structure CANMessage where
  mid : ℕ
  rtr : Bool
  extended : Bool
  dlc : ℕ
  /-- the packed little-endian payload, Python attribute `_data` -/
  data : ℕ
  deriving Repr, DecidableEq

/-- struct.unpack of the zero-padded little-endian byte list
(`unpack(&lt;Q, data)` after padding with zeros to 8 bytes):
byte i contributes `b * 256 ^ i`. -/
def pack_le : List ℕ → ℕ
  | [] => 0
  | b :: rest => b + 256 * pack_le rest

/-- CANMessage.__init__ (canmessage.py lines 99-153), with `dbc_info`
empty.  `mid` is clamped to `0x1fffffff`; `extended` is set exactly when
the (clamped) id exceeds `0x7ff`.  The `rtr` branch stores the `dlc`
argument as given (Python would store `None` when it was omitted, making
the object unusable downstream; that case is modelled as a construction
failure).  The data branch sets `dlc = len(data)` and packs the bytes;
`bytes(data)` fails on an element above 255, and `unpack` of more
than 8 bytes fails with `struct.error`. -/
def can_init (mid0 : ℕ) (data : Option (List ℕ)) (rtr : Bool) (dlc : Option ℕ) :
    Except String CANMessage :=
  let mid := min mid0 0x1fffffff
  let extended := decide (0x7ff < mid)
  if rtr then
    match dlc with
    | some d => .ok ⟨mid, rtr, extended, d, 0⟩
    | none => .error "dlc is None"
  else
    match data with
    | some l =>
      if 8 < l.length then .error "struct.error"
      else if l.any (fun b => 255 < b) then .error "ValueError: bytes out of range"
      else .ok ⟨mid, rtr, extended, l.length, pack_le l⟩
    | none =>
      match dlc with
      | some d => .ok ⟨mid, rtr, extended, d, 0⟩
      | none => .error "USBtinException: dlc unavailable"

/-! ### Hex formatting (Python format specifiers 08x / 03x / 01x / 02x) -/

/-- Python format `{:0wx}`: lowercase hex digits of `n`, left padded
with zeros to at least `width` characters. -/
def hexPad (n width : ℕ) : String :=
  let ds := Nat.toDigits 16 n
  ⟨List.replicate (width - ds.length) '0' ++ ds⟩

/-- byte `i` of `pack(&lt;Q, data)` (valid for `data < 2 ^ 64`, which
`pack` requires; Python raises `struct.error` beyond that). -/
def byte_at (data i : ℕ) : ℕ := (data >>> (8 * i)) &&& 0xff

/-- CANMessage.to_string (canmessage.py lines 379-408).  Type character,
identifier (8 hex digits when extended else 3), one dlc digit, then one
hex pair for each of the first `min dlc 8` payload bytes — the payload
loop is not guarded by `rtr`. -/
def to_string (f : CANMessage) : String :=
  let head :=
    if f.extended then (if f.rtr then "R" else "T") ++ hexPad f.mid 8
    else (if f.rtr then "r" else "t") ++ hexPad f.mid 3
  head ++ hexPad f.dlc 1
    ++ String.join ((List.range (min f.dlc 8)).map (fun i => hexPad (byte_at f.data i) 2))

/-! ### Decoding (CANMessage.from_string, canmessage.py lines 307-357) -/

/-- value of one hex digit, as accepted by Python `int(c, 16)`. -/
def hexVal? (c : Char) : Option ℕ :=
  if '0' ≤ c ∧ c ≤ '9' then some (c.toNat - '0'.toNat)
  else if 'a' ≤ c ∧ c ≤ 'f' then some (c.toNat - 'a'.toNat + 10)
  else if 'A' ≤ c ∧ c ≤ 'F' then some (c.toNat - 'A'.toNat + 10)
  else none

/-- Python `int(s, 16)`: fails (ValueError) on the empty string or any
non-hex character, otherwise the base-16 value. -/
def parseHex? (s : List Char) : Option ℕ :=
  match s with
  | [] => none
  | _ => s.foldlM (fun acc c => (hexVal? c).map (fun d => acc * 16 + d)) 0

/-- Python slice `s[a:b]` for `0 ≤ a ≤ b` (out-of-range bounds clamp). -/
def pySlice (s : List Char) (a b : ℕ) : List Char := (s.drop a).take (b - a)

/-- payload loop of the `t` branch: `dlc` times, parse `msg[index:index+2]`
and advance `index` by 2. -/
def readBytesStd (msg : List Char) (index : ℕ) : ℕ → Except String (List ℕ)
  | 0 => .ok []
  | n + 1 => do
    let b ← match parseHex? (pySlice msg index (index + 2)) with
      | some v => .ok v
      | none => .error "ValueError: invalid literal for int with base 16"
    let rest ← readBytesStd msg (index + 2) n
    .ok (b :: rest)

/-- payload loop of the `T` branch as written in the source: it parses
the single character `msg[index:index+1]` but advances `index` by 2. -/
def readBytesExt (msg : List Char) (index : ℕ) : ℕ → Except String (List ℕ)
  | 0 => .ok []
  | n + 1 => do
    let b ← match parseHex? (pySlice msg index (index + 1)) with
      | some v => .ok v
      | none => .error "ValueError: invalid literal for int with base 16"
    let rest ← readBytesExt msg (index + 2) n
    .ok (b :: rest)

/-- Python single-character index `msg[i]` followed by `int(·, 16)`:
IndexError when out of range, ValueError when not a hex digit. -/
def digitAt (msg : List Char) (i : ℕ) : Except String ℕ :=
  match msg.get? i with
  | none => .error "IndexError: string index out of range"
  | some c =>
    match hexVal? c with
    | some v => .ok v
    | none => .error "ValueError: invalid literal for int with base 16"

/-- Python `int(msg[a:b], 16)`. -/
def sliceHex (msg : List Char) (a b : ℕ) : Except String ℕ :=
  match parseHex? (pySlice msg a b) with
  | some v => .ok v
  | none => .error "ValueError: invalid literal for int with base 16"

/-- CANMessage.from_string (canmessage.py lines 307-357).  `index`
starts at 1.  In the `T` branch the source sets `index = index + 8`
(which leaves it pointing at the dlc digit) and reads one-character
slices; the embedding reproduces that.  A first character outside
`rRtT` leaves `mid`/`dlc` unbound in Python and the final
`cls(mid, ...)` raises UnboundLocalError. -/
def from_string (msg : List Char) : Except String CANMessage :=
  match msg with
  | [] => can_init 0 none false (some 0)
  | mtype :: _ =>
    if mtype = 'r' then do
      let mid ← sliceHex msg 1 4
      let dlc ← digitAt msg 4
      can_init mid (some []) true (some dlc)
    else if mtype = 'R' then do
      let mid ← sliceHex msg 1 9
      let dlc ← digitAt msg 9
      can_init mid (some []) true (some dlc)
    else if mtype = 't' then do
      let mid ← sliceHex msg 1 4
      let dlc ← digitAt msg 4
      let data ← readBytesStd msg 5 dlc
      can_init mid (some data) false (some dlc)
    else if mtype = 'T' then do
      let mid ← sliceHex msg 1 9
      let dlc ← digitAt msg 9
      let data ← readBytesExt msg 9 dlc
      can_init mid (some data) false (some dlc)
    else
      .error "UnboundLocalError: mid referenced before assignment"

/-! ### Byte-index access (CANMessage.__getitem__ / __setitem__,
canmessage.py lines 277-298) -/

/-- Python `d & (~m)` for non-negative `d` and `m`: the bits of `d`
with the bits of `m` cleared.  `~m` has no direct `Nat` counterpart
(Python ints are infinite two's complement), so the equivalent form
`d ^^^ (d &&& m)` is used: since `d &&& m` is the sub-mask of bits `d`
shares with `m`, xor-ing it away clears exactly those bits
(`(py_and_not d m).testBit i = (d.testBit i && !m.testBit i)`). -/
def py_and_not (d m : ℕ) : ℕ := d ^^^ (d &&& m)

/-- CANMessage.__getitem__ for an integer index. -/
def get_item (f : CANMessage) (index : ℕ) : Except String ℕ :=
  if index ≤ 7 then
    let shift := index * 8
    let mask := 0xff <<< shift
    .ok ((f.data &&& mask) >>> shift)
  else .error "USBtinException: index value error"

/-- CANMessage.__setitem__ for an integer index:
`self._data = self._data & (~mask) | value` with
`value = (value << shift) & mask`. -/
def set_item (f : CANMessage) (index value : ℕ) : Except String CANMessage :=
  if index ≤ 7 then
    let shift := index * 8
    let mask := 0xff <<< shift
    .ok { f with data := py_and_not f.data mask ||| ((value <<< shift) &&& mask) }
  else .error "USBtinException: index value error"

/-! ### Signal access (CANMessage.__setattr__ / __getattribute__,
canmessage.py lines 221-275)

One signal-table entry; `factor`/`offset` are floats parsed from the
DBC file, modelled as exact rationals. -/

structure Signal where
  start_bit : ℕ
  size : ℕ
  signed : Bool
  factor : ℚ
  offset : ℚ

/-- Python `int(·)` on a number: truncation toward zero. -/
def py_int (q : ℚ) : ℤ := if 0 ≤ q then ⌊q⌋ else ⌈q⌉

/-- the field mask `(2**size - 1) << start_bit`. -/
def sig_mask (sig : Signal) : ℕ := (2 ^ sig.size - 1) <<< sig.start_bit

/-- signal write (`__setattr__`, lines 230-239):
`raw = int(value / factor + offset)`;
`self._data = (self._data & ~mask) + ((raw << start_bit) & mask)`.
For a possibly negative Python int `raw`, `(raw << k) & ((2**s - 1) << k)`
keeps bits `k .. k+s-1` of the two's-complement form, i.e. equals
`(raw mod 2**s) << k` with the mathematical (non-negative) remainder. -/
def set_signal (data : ℕ) (sig : Signal) (v : ℚ) : ℕ :=
  let raw : ℤ := py_int (v / sig.factor + sig.offset)
  let written : ℕ := (raw % (2 ^ sig.size : ℤ)).toNat <<< sig.start_bit
  py_and_not data (sig_mask sig) + written

/-- signal read (`__getattribute__`, lines 253-270): extract the raw
field, sign-extend when `signed` and bit `size-1` is set, then scale.
(The `(factor, offset) == (1, 0)` fast path returns the raw int; both
branches agree as rationals.) -/
def get_signal (data : ℕ) (sig : Signal) : ℚ :=
  let value : ℕ := (data &&& sig_mask sig) >>> sig.start_bit
  let ival : ℤ :=
    if sig.signed ∧ value &&& 2 ^ (sig.size - 1) ≠ 0 then (value : ℤ) - 2 ^ sig.size
    else (value : ℤ)
  if sig.factor = 1 ∧ sig.offset = 0 then (ival : ℚ)
  else ((ival : ℚ) - sig.offset) * sig.factor

/-- signal write at the frame level: only `_data` changes. -/
def set_signal_frame (f : CANMessage) (sig : Signal) (v : ℚ) : CANMessage :=
  { f with data := set_signal f.data sig v }

/-- the claim/spec wording models the setter with `round` instead of the
source's truncating `int`; kept for comparison with `set_signal`. -/
def claimed_raw (v factor offset : ℚ) : ℤ := round (v / factor + offset)

/-! ### TX queue and receive dispatch (usbtin.py)

State is the `tx_fifo` list.  Serial writes are modelled as the list of
strings written, in order. -/

structure USBtinState where
  tx_fifo : List CANMessage
  deriving Repr, DecidableEq

/-- USBtin.send_first_tx_fifo_message (usbtin.py lines 340-350):
returns without sending when the fifo is empty, else writes the
serialized head frame plus terminator. -/
def send_first_tx_fifo_message (st : USBtinState) : List String :=
  match st.tx_fifo with
  | [] => []
  | m :: _ => [to_string m ++ "\r"]

/-- USBtin.send (usbtin.py lines 352-359): append to the fifo; send
only when the frame is alone in the fifo. -/
def send (st : USBtinState) (m : CANMessage) : USBtinState × List String :=
  let st' : USBtinState := ⟨st.tx_fifo ++ [m]⟩
  if 1 < st'.tx_fifo.length then (st', [])
  else (st', send_first_tx_fifo_message st')

/-- the `z`/`Z` branch of USBtin.rx_thread (usbtin.py lines 294-301):
`self.tx_fifo.pop(0)` — IndexError on an empty fifo — then
`send_first_tx_fifo_message`. -/
def handle_ack (st : USBtinState) : Except String (USBtinState × List String) :=
  match st.tx_fifo with
  | [] => .error "IndexError: pop from empty list"
  | _ :: rest => .ok (⟨rest⟩, send_first_tx_fifo_message ⟨rest⟩)

/-- the `0x07` branch of USBtin.rx_thread (usbtin.py lines 306-311):
resend the head without popping. -/
def handle_error_marker (st : USBtinState) : USBtinState × List String :=
  (st, send_first_tx_fifo_message st)

/-- classification of one complete line by USBtin.rx_thread (usbtin.py
lines 284-304): frame lines are decoded and handed to listeners (the
decoded results are returned), `z`/`Z` advances the tx fifo, anything
else is discarded. -/
def rx_line (st : USBtinState) (line : List Char) :
    Except String (USBtinState × List String × List (Except String CANMessage)) :=
  match line with
  | [] => .ok (st, [], [])
  | cmd :: _ =>
    if cmd ∈ (['t', 'T', 'r', 'R'] : List Char) then .ok (st, [], [from_string line])
    else if cmd ∈ (['z', 'Z'] : List Char) then
      (handle_ack st).map (fun p => (p.1, p.2, []))
    else .ok (st, [], [])

/-! ### Bit-timing search (USBtin.open_can_channel, usbtin.py lines
186-228)

The non-preset branch.  The Python float arithmetic is modelled exactly
over `ℚ`; `xdesired = fosc / baudrate` is the ideal quanta-per-bit
scaled value. -/

/-- Python float `%` for non-negative left and positive right operand. -/
def qmod (a b : ℚ) : ℚ := a - b * ⌊a / b⌋

/-- the candidate prescaler factor for bit-time length `x`: scale by 10,
round to the next even step of 20 (up when the remainder is ≥ 10),
divide back by 10, clamp to [2, 128]. -/
def brp_candidate (xdesired : ℚ) (x : ℕ) : ℚ :=
  let xbrp0 := xdesired * 10 / (x : ℚ)
  let m := qmod xbrp0 20
  let xbrp1 := if 10 ≤ m then xbrp0 + 20 else xbrp0
  let xbrp2 := (xbrp1 - m) / 10
  let xbrp3 := if xbrp2 < 2 then 2 else xbrp2
  if 128 < xbrp3 then 128 else xbrp3

/-- the source's `diff = xdesired - xist; if diff < 0: diff = -diff`. -/
def py_abs (q : ℚ) : ℚ := if q < 0 then -q else q

/-- absolute deviation of candidate `x` from the ideal quanta count. -/
def cand_diff (xdesired : ℚ) (x : ℕ) : ℚ :=
  py_abs (xdesired - (x : ℚ) * brp_candidate xdesired x)

/-- one iteration of the search loop: state is `(xopt, diffopt, brpopt)`,
taken when `xopt == 0` (first iteration) or `diff <= diffopt`. -/
def bt_step (xdesired : ℚ) (st : ℕ × ℚ × ℚ) (x : ℕ) : ℕ × ℚ × ℚ :=
  let xbrp := brp_candidate xdesired x
  let diff := py_abs (xdesired - (x : ℚ) * xbrp)
  if st.1 = 0 ∨ diff ≤ st.2.1 then (x, diff, xbrp / 2 - 1)
  else st

/-- the candidate list, Python `range(11, 23 + 1)`. -/
def bt_candidates : List ℕ := List.range' 11 13

/-- the whole search loop over bit-time lengths 11..23. -/
def bt_search (xdesired : ℚ) : ℕ × ℚ × ℚ :=
  bt_candidates.foldl (bt_step xdesired) (0, 0, 0)

/-! ### Filter/mask mapper (USBtin.set_filter and helpers, usbtin.py
lines 361-456)

Registers writes are modelled as `(address, value)` pairs, in the order
the source performs them.  A `FilterChain` holds the 4 mask register
bytes and, per filter, the 4 filter register bytes (`get_registers`). -/

structure FilterChain where
  mask : List ℕ
  filters : List (List ℕ)
  deriving Repr, DecidableEq

/-- four consecutive register writes `registers[i]` for `i in range(4)`;
IndexError when the register list is shorter than 4. -/
def reg_group_writes (base : ℕ) (regs : List ℕ) : Except String (List (ℕ × ℕ)) :=
  (List.range 4).mapM (fun i =>
    match regs.get? i with
    | some v => Except.ok (base + i, v)
    | none => Except.error "IndexError: register list too short")

/-- USBtin.write_mcp_filter_mask_registers (lines 374-382): registers
`0x20 + maskid * 4 + i`. -/
def write_mcp_filter_mask_registers (maskid : ℕ) (regs : List ℕ) :
    Except String (List (ℕ × ℕ)) :=
  reg_group_writes (0x20 + maskid * 4) regs

/-- the `startregister` table of USBtin.write_mcp_filter_registers. -/
def mcp_startregister : List ℕ := [0x00, 0x04, 0x08, 0x10, 0x14, 0x18]

/-- USBtin.write_mcp_filter_registers (lines 384-393). -/
def write_mcp_filter_registers (filterid : ℕ) (regs : List ℕ) :
    Except String (List (ℕ × ℕ)) :=
  match mcp_startregister.get? filterid with
  | some base => reg_group_writes base regs
  | none => .error "IndexError: filterid out of range"

/-- Python `fc[fcidx]`: IndexError when out of range (never hit by
`set_filter`, whose chain count is 1 or 2 by the earlier checks). -/
def chain_at (fc : List FilterChain) (i : ℕ) : Except String FilterChain :=
  match fc.get? i with
  | some c => Except.ok c
  | none => Except.error "IndexError: filter chain index"

/-- the body of `if len(fc[fcidx].get_filters()) > i: registers =
fc[fcidx].get_filters()[i].get_registers()`: the i-th filter registers
when the chain has more than `i` filters (`get? i` is `some` exactly
then), otherwise the previous `registers` value. -/
def pick (filters : List (List ℕ)) (i : ℕ) (registers : List ℕ) : List ℕ :=
  match filters.get? i with
  | some r => r
  | none => registers

/-- inner slot loop of set_filter (lines 446-456).  The `registers`
variable persists across slots (it is only reassigned when the current
chain still has an `i`-th filter), and `fcidx` is incremented after
every filter write while `fcidx < len(fc) - 1`. -/
def walk_slots (fc : List FilterChain) :
    List ℕ → List ℕ → ℕ → ℕ → Except String (List (ℕ × ℕ) × ℕ × ℕ)
  | [], _, fcidx, filterid => .ok ([], fcidx, filterid)
  | i :: rest, registers, fcidx, filterid => do
    let chain ← chain_at fc fcidx
    let registers' := pick chain.filters i registers
    let ws ← write_mcp_filter_registers filterid registers'
    let fcidx' := if fcidx < fc.length - 1 then fcidx + 1 else fcidx
    let (rest_ws, st) ← walk_slots fc rest registers' fcidx' (filterid + 1)
    .ok (ws ++ rest_ws, st)

/-- outer channel loop of set_filter (lines 441-456): per channel, write
the current chain's mask registers, then walk the `2 * (1 + channel)`
filter slots with `registers` freshly reset to all-zero. -/
def walk_channels (fc : List FilterChain) :
    List ℕ → ℕ → ℕ → Except String (List (ℕ × ℕ))
  | [], _, _ => .ok []
  | channel :: rest, fcidx, filterid => do
    let chain ← chain_at fc fcidx
    let mws ← write_mcp_filter_mask_registers channel chain.mask
    let (sws, fcidx', filterid') ←
      walk_slots fc (List.range (2 * (1 + channel))) [0, 0, 0, 0] fcidx filterid
    let rws ← walk_channels fc rest fcidx' filterid'
    .ok (mws ++ sws ++ rws)

/-- USBtin.set_filter (usbtin.py lines 395-456).  The source swaps
`fc[0]` and `fc[1]` in place when the first chain has strictly more
filters, then validates capacity and walks; here the swap is expressed
branch-locally (for a two-element list, `fc` after the conditional swap
is `[a, b]` with `a`/`b` selected by the same comparison). -/
def set_filter (fc0 : List FilterChain) : Except String (List (ℕ × ℕ)) :=
  if fc0.isEmpty then do
    let w0 ← write_mcp_filter_mask_registers 0 [0, 0, 0, 0]
    let w1 ← write_mcp_filter_mask_registers 1 [0, 0, 0, 0]
    .ok (w0 ++ w1)
  else if 2 < fc0.length then
    .error "USBtinException: too many filter chains"
  else
    match fc0 with
    | [a0, b0] =>
      let a := if b0.filters.length < a0.filters.length then b0 else a0
      let b := if b0.filters.length < a0.filters.length then a0 else b0
      if 2 < a.filters.length ∧ 4 < b.filters.length then
        Except.error "USBtinException: filter chain too long"
      else walk_channels [a, b] [0, 1] 0 0
    | [a0] =>
      if 4 < a0.filters.length then
        Except.error "USBtinException: filter chain too long"
      else walk_channels [a0] [0, 1] 0 0
    | other => walk_channels other [0, 1] 0 0

/-! ### Auxiliary definitions used by theorem statements -/

/-- the four register writes of one 4-byte group, as `set_filter`
produces them for a register list of length 4. -/
def group (base : ℕ) (regs : List ℕ) : List (ℕ × ℕ) :=
  (List.range 4).map (fun i => (base + i, regs.getD i 0))

/-- two-filter chain A used in concrete filter-mapper runs. -/
def chain_a2 : FilterChain := ⟨[1, 2, 3, 4], [[0xA0, 1, 1, 1], [0xA1, 2, 2, 2]]⟩

/-- two-filter chain B used in concrete filter-mapper runs. -/
def chain_b2 : FilterChain := ⟨[5, 6, 7, 8], [[0xB0, 3, 3, 3], [0xB1, 4, 4, 4]]⟩

/-- three-filter chain used for the capacity-check run. -/
def chain_c3a : FilterChain := ⟨[1, 1, 1, 1], [[10, 0, 0, 0], [11, 0, 0, 0], [12, 0, 0, 0]]⟩

/-- second three-filter chain used for the capacity-check run. -/
def chain_c3b : FilterChain := ⟨[2, 2, 2, 2], [[20, 0, 0, 0], [21, 0, 0, 0], [22, 0, 0, 0]]⟩

/-- closed form of the filter-slot register values for a two-chain
walk, bank 0: slot 0 takes chain A's first filter or all-zero. -/
def slot0 (a : FilterChain) : List ℕ := pick a.filters 0 [0, 0, 0, 0]

/-- closed form, bank 0 slot 1: after the eager chain advance the
current chain is B, so the slot takes B's second filter when present,
else the registers left over from slot 0. -/
def slot1 (a b : FilterChain) : List ℕ := pick b.filters 1 (slot0 a)

/-- closed form of bank 1's slots against chain B: the i-th filter when
present, otherwise the previously written registers (all-zero only when
B has no filters at all). -/
def bslot (b : FilterChain) : ℕ → List ℕ
  | 0 => pick b.filters 0 [0, 0, 0, 0]
  | n + 1 => pick b.filters (n + 1) (bslot b n)

/-- five-filter chain used to exercise the capacity error branch. -/
def chain_f5 : FilterChain :=
  ⟨[0, 0, 0, 0], [[1, 0, 0, 0], [2, 0, 0, 0], [3, 0, 0, 0], [4, 0, 0, 0], [5, 0, 0, 0]]⟩

/-- loop invariant of the bit-timing search: after processing
`processed`, `st = (xopt, diffopt, brpopt)` holds the diff and prescaler
of candidate `xopt`, a processed candidate whose diff is minimal among
the processed ones, and every processed candidate strictly larger than
`xopt` has a strictly larger diff (so on ties the later candidate won). -/
def bt_inv (xd : ℚ) (processed : List ℕ) (st : ℕ × ℚ × ℚ) : Prop :=
  st.1 ≠ 0 ∧ st.1 ∈ processed ∧
  st.2.1 = cand_diff xd st.1 ∧ st.2.2 = brp_candidate xd st.1 / 2 - 1 ∧
  (∀ y ∈ processed, st.2.1 ≤ cand_diff xd y) ∧
  (∀ y ∈ processed, st.1 < y → st.2.1 < cand_diff xd y)

/-- the raw value fits the bit field and the getter sign convention:
for signed fields the two's-complement range, for unsigned fields the
plain range.  This is the "in-domain" side condition of the signal
round-trip. -/
def in_range_raw (sig : Signal) (raw : ℤ) : Prop :=
  if sig.signed then
    -(2 ^ (sig.size - 1) : ℤ) ≤ raw ∧ raw < 2 ^ (sig.size - 1)
  else 0 ≤ raw ∧ raw < 2 ^ sig.size

/-! ### Generic helper lemmas (bit manipulation) -/

theorem py_and_not_testBit (d m i : ℕ) :
    (py_and_not d m).testBit i = (d.testBit i && !(m.testBit i)) := by
  simp only [py_and_not, Nat.testBit_xor, Nat.testBit_land]
  cases d.testBit i <;> cases m.testBit i <;> rfl

theorem mask_testBit (s k i : ℕ) :
    ((2 ^ s - 1) <<< k).testBit i = (decide (k ≤ i) && decide (i - k < s)) := by
  simp [Nat.testBit_shiftLeft, Nat.testBit_two_pow_sub_one]

/-- extracting a contiguous field with `& mask` / `>> k` is a div/mod. -/
theorem land_mask_shift (x s k : ℕ) :
    (x &&& ((2 ^ s - 1) <<< k)) >>> k = x / 2 ^ k % 2 ^ s := by
  apply Nat.eq_of_testBit_eq
  intro i
  rw [← Nat.shiftRight_eq_div_pow]
  simp only [Nat.testBit_shiftRight, Nat.testBit_land, mask_testBit,
    Nat.testBit_mod_two_pow]
  have h1 : k ≤ k + i := Nat.le_add_right k i
  have h2 : k + i - k = i := by omega
  simp [h1, h2, Bool.and_comm]

theorem testBit_high_low (H L n i : ℕ) (hL : L < 2 ^ n) :
    (H * 2 ^ n + L).testBit i =
      if i < n then L.testBit i else H.testBit (i - n) := by
  rcases Nat.lt_or_ge i n with h | h
  · rw [if_pos h]
    have hmod : (H * 2 ^ n + L) % 2 ^ n = L := by
      rw [Nat.add_comm, Nat.add_mul_mod_self_right, Nat.mod_eq_of_lt hL]
    have hx := Nat.testBit_mod_two_pow (H * 2 ^ n + L) n i
    rw [hmod] at hx
    rw [hx]
    simp [h]
  · rw [if_neg (by omega)]
    have hdiv : (H * 2 ^ n + L) / 2 ^ n = H := by
      rw [Nat.add_comm, Nat.add_mul_div_right _ _ (Nat.two_pow_pos n),
        Nat.div_eq_of_lt hL, Nat.zero_add]
    have hsr : (H * 2 ^ n + L) >>> n = H := by
      rw [Nat.shiftRight_eq_div_pow, hdiv]
    have hx := Nat.testBit_shiftRight (i := n) (j := i - n) (H * 2 ^ n + L)
    rw [hsr] at hx
    rw [hx]
    congr 1
    omega

/-- clearing a contiguous field splits the word into its high and low
parts. -/
theorem py_and_not_mask_eq (x s k : ℕ) :
    py_and_not x ((2 ^ s - 1) <<< k) =
      x / 2 ^ (k + s) * 2 ^ (k + s) + x % 2 ^ k := by
  apply Nat.eq_of_testBit_eq
  intro i
  have hlow : x % 2 ^ k < 2 ^ (k + s) :=
    lt_of_lt_of_le (Nat.mod_lt _ (Nat.two_pow_pos k))
      (Nat.pow_le_pow_right (by norm_num) (by omega))
  rw [testBit_high_low _ _ _ _ hlow, py_and_not_testBit, mask_testBit]
  rcases Nat.lt_or_ge i k with h1 | h1
  · rw [if_pos (by omega)]
    simp [Nat.testBit_mod_two_pow, h1, show ¬ k ≤ i by omega]
  · rcases Nat.lt_or_ge i (k + s) with h2 | h2
    · rw [if_pos h2]
      simp [Nat.testBit_mod_two_pow, show ¬ i < k by omega, h1,
        show i - k < s by omega]
    · rw [if_neg (by omega)]
      rw [← Nat.shiftRight_eq_div_pow]
      have hx := Nat.testBit_shiftRight (i := k + s) (j := i - (k + s)) x
      have harg : k + s + (i - (k + s)) = i := by omega
      rw [hx, harg]
      simp [h1, show ¬ i - k < s by omega]

/-- writing value `r` into a cleared contiguous field and reading it
back recovers `r`. -/
theorem extract_set (x r s k : ℕ) (hr : r < 2 ^ s) :
    ((py_and_not x ((2 ^ s - 1) <<< k) + r <<< k) &&& ((2 ^ s - 1) <<< k)) >>> k
      = r := by
  rw [land_mask_shift, py_and_not_mask_eq, Nat.shiftLeft_eq]
  have hL : x % 2 ^ k < 2 ^ k := Nat.mod_lt _ (Nat.two_pow_pos k)
  have hsplit : x / 2 ^ (k + s) * 2 ^ (k + s) + x % 2 ^ k + r * 2 ^ k
      = 2 ^ k * (x / 2 ^ (k + s) * 2 ^ s + r) + x % 2 ^ k := by
    rw [pow_add]; ring
  rw [hsplit, Nat.mul_add_div (Nat.two_pow_pos k), Nat.div_eq_of_lt hL,
    Nat.add_zero, Nat.mul_comm (x / 2 ^ (k + s)) (2 ^ s), Nat.mul_add_mod,
    Nat.mod_eq_of_lt hr]

/-! ### Signal round-trip lemmas -/

/-- Python truncation differs from its argument by less than one. -/
theorem py_int_sub_abs_le (u : ℚ) : |(py_int u : ℚ) - u| ≤ 1 := by
  unfold py_int
  split
  · rw [abs_le]
    constructor
    · have h := Int.sub_one_lt_floor u
      push_cast
      linarith
    · have h := Int.floor_le u
      push_cast
      linarith
  · rw [abs_le]
    constructor
    · have h := Int.le_ceil u
      push_cast
      linarith
    · have h := Int.ceil_lt_add_one u
      push_cast
      linarith

/-- a field value written from a non-negative raw below the sign bit
has the sign bit clear. -/
theorem highbit_of_nonneg (s : ℕ) (raw : ℤ) (hge : 0 ≤ raw)
    (hhi : raw < 2 ^ (s - 1)) :
    (raw % 2 ^ s).toNat &&& 2 ^ (s - 1) = 0 := by
  have hlt : raw < 2 ^ s := lt_of_lt_of_le hhi (by
    have : (2 : ℤ) ^ (s - 1) ≤ 2 ^ s := by
      apply pow_le_pow_right (by norm_num)
      omega
    exact this)
  have hmod : raw % 2 ^ s = raw := Int.emod_eq_of_lt hge hlt
  have htn : (raw % 2 ^ s).toNat < 2 ^ (s - 1) := by
    rw [hmod, Int.toNat_lt hge]
    exact_mod_cast hhi
  rw [Nat.and_two_pow, Nat.testBit_lt_two_pow htn]
  simp

/-- a field value written from an in-range negative raw has the sign
bit set. -/
theorem highbit_of_neg (s : ℕ) (raw : ℤ) (hs : 1 ≤ s)
    (hlo : -(2 ^ (s - 1) : ℤ) ≤ raw) (hlt : raw < 0) :
    (raw % 2 ^ s).toNat &&& 2 ^ (s - 1) ≠ 0 := by
  have hpow : (2 : ℤ) ^ s = 2 ^ (s - 1) * 2 := by
    rw [← pow_succ]
    congr 1
    omega
  have hmod : raw % 2 ^ s = raw + 2 ^ s := by
    have h1 : (raw + 2 ^ s) % 2 ^ s = raw % 2 ^ s := by
      have := Int.add_mul_emod_self_left (a := raw) (b := 2 ^ s) (c := 1)
      simpa using this
    rw [← h1]
    apply Int.emod_eq_of_lt
    · nlinarith
    · linarith
  have hmod_nonneg : (0 : ℤ) ≤ raw % 2 ^ s := by
    rw [hmod]; nlinarith
  have hge2 : 2 ^ (s - 1) ≤ (raw % 2 ^ s).toNat := by
    rw [Int.le_toNat hmod_nonneg, hmod]
    push_cast
    nlinarith
  have hlt2 : (raw % 2 ^ s).toNat < 2 ^ (s - 1) * 2 := by
    have h3 : raw % 2 ^ s < 2 ^ s := Int.emod_lt_of_pos raw (by positivity)
    have h4 : (raw % 2 ^ s).toNat < 2 ^ s := by
      rw [Int.toNat_lt hmod_nonneg]
      exact_mod_cast h3
    calc (raw % 2 ^ s).toNat < 2 ^ s := h4
    _ = 2 ^ (s - 1) * 2 := by
        rw [← pow_succ]
        congr 1
        omega
  have hbit : ((raw % 2 ^ s).toNat).testBit (s - 1) = true := by
    rw [Nat.testBit_to_div_mod]
    have hd1 : 1 ≤ (raw % 2 ^ s).toNat / 2 ^ (s - 1) :=
      (Nat.le_div_iff_mul_le (Nat.two_pow_pos _)).2 (by omega)
    have hd2 : (raw % 2 ^ s).toNat / 2 ^ (s - 1) < 2 :=
      Nat.div_lt_of_lt_mul hlt2
    simp only [decide_eq_true_eq]
    omega
  rw [Nat.and_two_pow, hbit]
  simp

/-- reading back a just-written signal recovers exactly the truncated
raw value (scaled back), provided the raw value is in range. -/
theorem get_set_signal_raw (data : ℕ) (sig : Signal) (v : ℚ) (hs : 1 ≤ sig.size)
    (hr : in_range_raw sig (py_int (v / sig.factor + sig.offset))) :
    get_signal (set_signal data sig v) sig
      = ((py_int (v / sig.factor + sig.offset) : ℚ) - sig.offset) * sig.factor := by
  set raw := py_int (v / sig.factor + sig.offset) with hraw
  have hmod_nonneg : 0 ≤ raw % 2 ^ sig.size :=
    Int.emod_nonneg raw (by positivity)
  have hmod_lt : raw % 2 ^ sig.size < 2 ^ sig.size :=
    Int.emod_lt_of_pos raw (by positivity)
  have hrn : (raw % 2 ^ sig.size).toNat < 2 ^ sig.size := by
    rw [Int.toNat_lt hmod_nonneg]
    exact_mod_cast hmod_lt
  have hval : (set_signal data sig v &&& sig_mask sig) >>> sig.start_bit
      = (raw % 2 ^ sig.size).toNat := by
    show ((py_and_not data (sig_mask sig)
        + (raw % (2 ^ sig.size : ℤ)).toNat <<< sig.start_bit)
        &&& sig_mask sig) >>> sig.start_bit = (raw % 2 ^ sig.size).toNat
    have hm : sig_mask sig = (2 ^ sig.size - 1) <<< sig.start_bit := rfl
    rw [hm]
    exact extract_set data _ sig.size sig.start_bit hrn
  unfold get_signal
  rw [hval]
  dsimp only
  have hival : (if sig.signed = true
        ∧ (raw % 2 ^ sig.size).toNat &&& 2 ^ (sig.size - 1) ≠ 0
      then ((raw % 2 ^ sig.size).toNat : ℤ) - 2 ^ sig.size
      else ((raw % 2 ^ sig.size).toNat : ℤ)) = raw := by
    by_cases hc : sig.signed = true
        ∧ (raw % 2 ^ sig.size).toNat &&& 2 ^ (sig.size - 1) ≠ 0
    · rw [if_pos hc]
      have hsig := hc.1
      rw [in_range_raw, if_pos hsig] at hr
      have hneg : raw < 0 := by
        by_contra hge
        push_neg at hge
        exact hc.2 (highbit_of_nonneg sig.size raw hge hr.2)
      have hmod : raw % 2 ^ sig.size = raw + 2 ^ sig.size := by
        have h1 : (raw + 2 ^ sig.size) % 2 ^ sig.size = raw % 2 ^ sig.size := by
          have := Int.add_mul_emod_self_left (a := raw) (b := 2 ^ sig.size) (c := 1)
          simpa using this
        rw [← h1]
        apply Int.emod_eq_of_lt
        · have : (2 : ℤ) ^ (sig.size - 1) ≤ 2 ^ sig.size := by
            apply pow_le_pow_right (by norm_num)
            omega
          linarith [hr.1]
        · linarith
      rw [Int.toNat_of_nonneg hmod_nonneg, hmod]
      ring
    · rw [if_neg hc]
      have hge : 0 ≤ raw := by
        by_cases hsig : sig.signed = true
        · by_contra hneg
          push_neg at hneg
          rw [in_range_raw, if_pos hsig] at hr
          exact hc ⟨hsig, highbit_of_neg sig.size raw hs hr.1 hneg⟩
        · rw [in_range_raw, if_neg hsig] at hr
          exact hr.1
      have hhi : raw < 2 ^ sig.size := by
        by_cases hsig : sig.signed = true
        · rw [in_range_raw, if_pos hsig] at hr
          have : (2 : ℤ) ^ (sig.size - 1) ≤ 2 ^ sig.size := by
            apply pow_le_pow_right (by norm_num)
            omega
          linarith [hr.2]
        · rw [in_range_raw, if_neg hsig] at hr
          exact hr.2
      have hmod : raw % 2 ^ sig.size = raw := Int.emod_eq_of_lt hge hhi
      rw [Int.toNat_of_nonneg hmod_nonneg, hmod]
  rw [hival]
  split
  · rename_i hfo
    rw [hfo.1, hfo.2]
    ring
  · rfl

/-! ### Claim theorems -/

/-- Claim C1 (code bug): the encode/decode round trip fails for
extended data frames.  `to_string` of the frame id 0x12345678 with
payload [0x97] is "T12345678197" (as in the from_string docstring), but
the `T` branch of `from_string` leaves `index` at the dlc digit and
reads one-character slices, so the decoded payload byte is 0x01, not
0x97 — contradicting the docstring example `T12345678197 ... data: 97`
and the round-trip property. -/
theorem C1_roundtrip_fails_on_extended_data :
    can_init 0x12345678 (some [0x97]) false none
      = .ok ⟨0x12345678, false, true, 1, 0x97⟩ ∧
    (can_init 0x12345678 (some [0x97]) false none).map to_string
      = .ok "T12345678197" ∧
    from_string "T12345678197".toList = .ok ⟨0x12345678, false, true, 1, 1⟩ ∧
    (⟨0x12345678, false, true, 1, 1⟩ : CANMessage)
      ≠ ⟨0x12345678, false, true, 1, 0x97⟩ :=
  ⟨rfl, rfl, rfl, by decide⟩

/-- Claim C3 (code bug): decoding is claimed never to raise, with
malformed hex decoding as 0, but `from_string` wraps no try/except:
a non-hex identifier raises ValueError (`int('zzz', 16)`), a too-short
frame line raises ValueError or IndexError, while the zero-length input
does decode to id 0 / length 0. -/
theorem C3_decode_raises_on_malformed_input :
    from_string "tzzz0".toList
      = .error "ValueError: invalid literal for int with base 16" ∧
    from_string "t".toList
      = .error "ValueError: invalid literal for int with base 16" ∧
    from_string "t123".toList
      = .error "IndexError: string index out of range" ∧
    from_string "".toList = .ok ⟨0, false, false, 0, 0⟩ :=
  ⟨rfl, rfl, rfl, rfl⟩

/-- Claim C10 (confirmed): an acknowledgement line while the tx fifo is
empty hits `tx_fifo.pop(0)` on an empty list and raises IndexError
inside the parser loop (the surrounding try only catches
USBtinException); with a non-empty fifo the same line is processed
normally.  Spurious acknowledgements are therefore not tolerated. -/
theorem C10_ack_requires_nonempty_fifo :
    rx_line ⟨[]⟩ "z".toList = .error "IndexError: pop from empty list" ∧
    rx_line ⟨[⟨3, true, false, 7, 0⟩]⟩ "z".toList = .ok (⟨[]⟩, [], []) :=
  ⟨rfl, rfl⟩

/-- Claim C2 (confirmed): enqueue into an empty queue sends exactly that
frame; enqueue into a non-empty queue appends at the tail and sends
nothing; an acknowledgement pops the head and sends the new head when
one exists (and nothing otherwise); an error marker resends the head
without popping.  Order is strict FIFO (append at tail, pop at head). -/
theorem C2_tx_queue_flow_control (fifo rest : List CANMessage)
    (m m2 : CANMessage) (hne : fifo ≠ []) :
    send ⟨[]⟩ m = (⟨[m]⟩, [to_string m ++ "\r"]) ∧
    send ⟨fifo⟩ m = (⟨fifo ++ [m]⟩, []) ∧
    handle_ack ⟨m :: m2 :: rest⟩ = .ok (⟨m2 :: rest⟩, [to_string m2 ++ "\r"]) ∧
    handle_ack ⟨[m]⟩ = .ok (⟨[]⟩, []) ∧
    handle_error_marker ⟨m :: rest⟩ = (⟨m :: rest⟩, [to_string m ++ "\r"]) := by
  refine ⟨rfl, ?_, rfl, rfl, rfl⟩
  obtain ⟨a, t, rfl⟩ : ∃ a t, fifo = a :: t := by
    cases fifo with
    | nil => exact absurd rfl hne
    | cons a t => exact ⟨a, t, rfl⟩
  have hlen : 1 < (a :: (t ++ [m])).length := by
    simp only [List.length_cons, List.length_append, List.length_nil]
    omega
  show (let st' : USBtinState := ⟨a :: t ++ [m]⟩;
    if 1 < st'.tx_fifo.length then (st', [])
    else (st', send_first_tx_fifo_message st')) = (⟨a :: t ++ [m]⟩, [])
  simp only [List.cons_append] at hlen ⊢
  rw [if_pos hlen]

/-- Claim C2, witness: the flow-control theorem instantiated at a
concrete one-element queue. -/
theorem C2_tx_queue_flow_control_witness :
    send ⟨[]⟩ ⟨1, false, false, 0, 0⟩
      = (⟨[⟨1, false, false, 0, 0⟩]⟩, [to_string ⟨1, false, false, 0, 0⟩ ++ "\r"]) ∧
    send ⟨[⟨3, true, false, 7, 0⟩]⟩ ⟨1, false, false, 0, 0⟩
      = (⟨[⟨3, true, false, 7, 0⟩] ++ [⟨1, false, false, 0, 0⟩]⟩, []) ∧
    handle_ack ⟨⟨1, false, false, 0, 0⟩ :: ⟨2, false, false, 1, 5⟩ :: []⟩
      = .ok (⟨⟨2, false, false, 1, 5⟩ :: []⟩, [to_string ⟨2, false, false, 1, 5⟩ ++ "\r"]) ∧
    handle_ack ⟨[⟨1, false, false, 0, 0⟩]⟩ = .ok (⟨[]⟩, []) ∧
    handle_error_marker ⟨⟨1, false, false, 0, 0⟩ :: []⟩
      = (⟨⟨1, false, false, 0, 0⟩ :: []⟩, [to_string ⟨1, false, false, 0, 0⟩ ++ "\r"]) :=
  C2_tx_queue_flow_control [⟨3, true, false, 7, 0⟩] [] ⟨1, false, false, 0, 0⟩
    ⟨2, false, false, 1, 5⟩ (by decide)

/-- Claim C7, counterexample: the claim states the setter computes
`raw = round(value / factor + offset)`; the source computes
`int(value / factor + offset)` which truncates toward zero.  For
factor 1/2, offset 0, value 1.3 the written raw field is 2 while
`round(2.6)` is 3. -/
theorem C7_setter_truncates_not_rounds :
    set_signal 0 ⟨0, 8, false, 1/2, 0⟩ (13/10) = 2 ∧
    claimed_raw (13/10) (1/2) 0 = 3 ∧ (2 : ℕ) ≠ 3 := by
  refine ⟨?_, ?_, by decide⟩
  · show py_and_not 0 (sig_mask ⟨0, 8, false, 1/2, 0⟩)
        + (py_int ((13/10 : ℚ) / (1/2 : ℚ) + 0) % (2 ^ 8 : ℤ)).toNat <<< 0 = 2
    rw [show py_int ((13/10 : ℚ) / (1/2 : ℚ) + 0) = 2 by norm_num [py_int]]
    decide
  · rw [claimed_raw, round_eq]
    norm_num

/-- Claim C7 (corrected): with the setter's truncating `int` in place of
the claimed `round`, the set-then-get round trip is exact up to one
quantization step: for positive factor and an in-range raw value the
read-back differs from the written physical value by at most `factor`. -/
theorem C7_signal_roundtrip_within_step (sig : Signal) (data : ℕ) (v : ℚ)
    (hf : 0 < sig.factor) (hs : 1 ≤ sig.size)
    (hr : in_range_raw sig (py_int (v / sig.factor + sig.offset))) :
    |get_signal (set_signal data sig v) sig - v| ≤ sig.factor := by
  rw [get_set_signal_raw data sig v hs hr]
  have hfne : sig.factor ≠ 0 := ne_of_gt hf
  have hv : ((py_int (v / sig.factor + sig.offset) : ℚ) - sig.offset) * sig.factor - v
      = ((py_int (v / sig.factor + sig.offset) : ℚ)
          - (v / sig.factor + sig.offset)) * sig.factor := by
    field_simp
    ring
  rw [hv, abs_mul, abs_of_pos hf]
  calc |(py_int (v / sig.factor + sig.offset) : ℚ)
        - (v / sig.factor + sig.offset)| * sig.factor
      ≤ 1 * sig.factor :=
        mul_le_mul_of_nonneg_right (py_int_sub_abs_le _) hf.le
    _ = sig.factor := one_mul _

/-- Claim C7, witness: a concrete signed signal (start bit 4, size 8,
factor 1/2, offset 3) written with value 10 over non-zero prior payload
reads back within half a unit. -/
theorem C7_signal_roundtrip_within_step_witness :
    |get_signal (set_signal 0xABCD ⟨4, 8, true, 1/2, 3⟩ 10) ⟨4, 8, true, 1/2, 3⟩
      - 10| ≤ (⟨4, 8, true, 1/2, 3⟩ : Signal).factor :=
  C7_signal_roundtrip_within_step ⟨4, 8, true, 1/2, 3⟩ 0xABCD 10
    (by norm_num) (by norm_num) (by norm_num [in_range_raw, py_int])

/-! ### Constructor invariant lemmas -/

/-- every successfully constructed message has a clamped identifier and
the extended flag exactly on ids above 0x7ff; a payload list fixes
`dlc = len(data) ≤ 8`, while an explicit `dlc` argument is stored
unchecked. -/
theorem can_init_invariant (mid0 : ℕ) (data : Option (List ℕ)) (rtr : Bool)
    (dlc : Option ℕ) (f : CANMessage) (h : can_init mid0 data rtr dlc = .ok f) :
    f.mid ≤ 0x1fffffff ∧ (f.extended = true ↔ 0x7ff < f.mid) ∧ f.rtr = rtr ∧
    (rtr = false → ∀ l, data = some l → f.dlc = l.length ∧ l.length ≤ 8) := by
  unfold can_init at h
  cases rtr with
  | true =>
    cases dlc with
    | none => simp at h
    | some d =>
      simp only [if_pos, Except.ok.injEq] at h
      subst h
      refine ⟨min_le_right _ _, by simp, rfl, fun habs => by simp at habs⟩
  | false =>
    cases data with
    | some l =>
      simp only [Bool.false_eq_true, if_false] at h
      split at h
      · simp at h
      · split at h
        · simp at h
        · rename_i hlen hbig
          simp only [Except.ok.injEq] at h
          subst h
          refine ⟨min_le_right _ _, by simp, rfl, fun _ l2 hl2 => ?_⟩
          obtain rfl : l = l2 := by injection hl2
          exact ⟨rfl, by omega⟩
    | none =>
      cases dlc with
      | none => simp at h
      | some d =>
        simp only [Bool.false_eq_true, if_false, Except.ok.injEq] at h
        subst h
        exact ⟨min_le_right _ _, by simp, rfl, fun _ l2 hl2 => by simp at hl2⟩

/-- every successfully decoded message satisfies the identifier
invariant, because all `from_string` paths end in the constructor. -/
theorem from_string_invariant (msg : List Char) (f : CANMessage)
    (h : from_string msg = .ok f) :
    f.mid ≤ 0x1fffffff ∧ (f.extended = true ↔ 0x7ff < f.mid) := by
  cases msg with
  | nil =>
    have hh := can_init_invariant 0 none false (some 0) f h
    exact ⟨hh.1, hh.2.1⟩
  | cons c cs =>
    simp only [from_string] at h
    split at h
    · -- the r branch
      cases hmid : sliceHex (c :: cs) 1 4 with
      | error e => rw [hmid] at h; exact Except.noConfusion h
      | ok mid =>
        rw [hmid] at h
        have h2 : (digitAt (c :: cs) 4 >>= fun dlc =>
            can_init mid (some []) true (some dlc)) = Except.ok f := h
        cases hdlc : digitAt (c :: cs) 4 with
        | error e => rw [hdlc] at h2; exact Except.noConfusion h2
        | ok dlc =>
          rw [hdlc] at h2
          have hh := can_init_invariant mid (some []) true (some dlc) f h2
          exact ⟨hh.1, hh.2.1⟩
    · split at h
      · -- the R branch
        cases hmid : sliceHex (c :: cs) 1 9 with
        | error e => rw [hmid] at h; exact Except.noConfusion h
        | ok mid =>
          rw [hmid] at h
          have h2 : (digitAt (c :: cs) 9 >>= fun dlc =>
              can_init mid (some []) true (some dlc)) = Except.ok f := h
          cases hdlc : digitAt (c :: cs) 9 with
          | error e => rw [hdlc] at h2; exact Except.noConfusion h2
          | ok dlc =>
            rw [hdlc] at h2
            have hh := can_init_invariant mid (some []) true (some dlc) f h2
            exact ⟨hh.1, hh.2.1⟩
      · split at h
        · -- the t branch
          cases hmid : sliceHex (c :: cs) 1 4 with
          | error e => rw [hmid] at h; exact Except.noConfusion h
          | ok mid =>
            rw [hmid] at h
            have h2 : (digitAt (c :: cs) 4 >>= fun dlc =>
                readBytesStd (c :: cs) 5 dlc >>= fun data =>
                can_init mid (some data) false (some dlc)) = Except.ok f := h
            cases hdlc : digitAt (c :: cs) 4 with
            | error e => rw [hdlc] at h2; exact Except.noConfusion h2
            | ok dlc =>
              rw [hdlc] at h2
              have h3 : (readBytesStd (c :: cs) 5 dlc >>= fun data =>
                  can_init mid (some data) false (some dlc)) = Except.ok f := h2
              cases hdata : readBytesStd (c :: cs) 5 dlc with
              | error e => rw [hdata] at h3; exact Except.noConfusion h3
              | ok data =>
                rw [hdata] at h3
                have hh := can_init_invariant mid (some data) false (some dlc) f h3
                exact ⟨hh.1, hh.2.1⟩
        · split at h
          · -- the T branch
            cases hmid : sliceHex (c :: cs) 1 9 with
            | error e => rw [hmid] at h; exact Except.noConfusion h
            | ok mid =>
              rw [hmid] at h
              have h2 : (digitAt (c :: cs) 9 >>= fun dlc =>
                  readBytesExt (c :: cs) 9 dlc >>= fun data =>
                  can_init mid (some data) false (some dlc)) = Except.ok f := h
              cases hdlc : digitAt (c :: cs) 9 with
              | error e => rw [hdlc] at h2; exact Except.noConfusion h2
              | ok dlc =>
                rw [hdlc] at h2
                have h3 : (readBytesExt (c :: cs) 9 dlc >>= fun data =>
                    can_init mid (some data) false (some dlc)) = Except.ok f := h2
                cases hdata : readBytesExt (c :: cs) 9 dlc with
                | error e => rw [hdata] at h3; exact Except.noConfusion h3
                | ok data =>
                  rw [hdata] at h3
                  have hh := can_init_invariant mid (some data) false (some dlc) f h3
                  exact ⟨hh.1, hh.2.1⟩
          · exact Except.noConfusion h

/-- Claim C9, counterexample: the invariant claims `dlc ≤ 8` for every
constructed message, but an explicit dlc argument is stored unchecked:
constructing an RTR frame with dlc 9 succeeds (also reachable from the
wire, e.g. decoding "r1009"), with dlc 9 > 8. -/
theorem C9_dlc_not_bounded :
    can_init 0x100 none true (some 9) = .ok ⟨0x100, true, false, 9, 0⟩ ∧
    from_string "r1009".toList = .ok ⟨0x100, true, false, 9, 0⟩ ∧
    ¬ (⟨0x100, true, false, 9, 0⟩ : CANMessage).dlc ≤ 8 :=
  ⟨rfl, rfl, by decide⟩

/-- Claim C9 (corrected): every constructed message has identifier
clamped to 0x1FFFFFFF and the extended flag exactly when the clamped id
exceeds 0x7FF; that part is preserved by decoding, byte-index
assignment and signal assignment (which never touch mid/extended/dlc).
`dlc ≤ 8` however holds only on the payload-data construction path
(`dlc = len(data)`, longer data fails to pack); an explicit dlc
argument (RTR or data-less construction) is stored without any bound
check. -/
theorem C9_invariant_amended (mid0 : ℕ) (data : Option (List ℕ)) (rtr : Bool)
    (dlc : Option ℕ) (f g : CANMessage) (msg : List Char) (i v : ℕ)
    (sig : Signal) (w : ℚ) (h : can_init mid0 data rtr dlc = .ok f) :
    (f.mid ≤ 0x1fffffff ∧ (f.extended = true ↔ 0x7ff < f.mid)) ∧
    (rtr = false → ∀ l, data = some l → f.dlc = l.length ∧ l.length ≤ 8) ∧
    (from_string msg = .ok g →
      g.mid ≤ 0x1fffffff ∧ (g.extended = true ↔ 0x7ff < g.mid)) ∧
    (∀ g2, set_item f i v = .ok g2 →
      g2.mid = f.mid ∧ g2.extended = f.extended ∧ g2.dlc = f.dlc ∧ g2.rtr = f.rtr) ∧
    ((set_signal_frame f sig w).mid = f.mid ∧
      (set_signal_frame f sig w).extended = f.extended ∧
      (set_signal_frame f sig w).dlc = f.dlc ∧
      (set_signal_frame f sig w).rtr = f.rtr) := by
  have hinv := can_init_invariant mid0 data rtr dlc f h
  refine ⟨⟨hinv.1, hinv.2.1⟩, hinv.2.2.2, fun hg => from_string_invariant msg g hg,
    fun g2 h2 => ?_, ⟨rfl, rfl, rfl, rfl⟩⟩
  unfold set_item at h2
  split at h2
  · simp only [Except.ok.injEq] at h2
    subst h2
    exact ⟨rfl, rfl, rfl, rfl⟩
  · exact Except.noConfusion h2

/-- Claim C9, witness: the amended invariant theorem instantiated at a
concrete data-list construction, decode line, byte write and signal
write. -/
theorem C9_invariant_amended_witness :
    ((⟨5, false, false, 2, 0x0201⟩ : CANMessage).mid ≤ 0x1fffffff ∧
      ((⟨5, false, false, 2, 0x0201⟩ : CANMessage).extended = true
        ↔ 0x7ff < (⟨5, false, false, 2, 0x0201⟩ : CANMessage).mid)) ∧
    (false = false → ∀ l, (some [1, 2] : Option (List ℕ)) = some l →
      (⟨5, false, false, 2, 0x0201⟩ : CANMessage).dlc = l.length ∧ l.length ≤ 8) ∧
    (from_string "t0021122".toList = .ok ⟨2, false, false, 1, 0x22⟩ →
      (⟨2, false, false, 1, 0x22⟩ : CANMessage).mid ≤ 0x1fffffff ∧
      ((⟨2, false, false, 1, 0x22⟩ : CANMessage).extended = true
        ↔ 0x7ff < (⟨2, false, false, 1, 0x22⟩ : CANMessage).mid)) ∧
    (∀ g2, set_item ⟨5, false, false, 2, 0x0201⟩ 3 0xff = .ok g2 →
      g2.mid = (⟨5, false, false, 2, 0x0201⟩ : CANMessage).mid ∧
      g2.extended = (⟨5, false, false, 2, 0x0201⟩ : CANMessage).extended ∧
      g2.dlc = (⟨5, false, false, 2, 0x0201⟩ : CANMessage).dlc ∧
      g2.rtr = (⟨5, false, false, 2, 0x0201⟩ : CANMessage).rtr) ∧
    ((set_signal_frame ⟨5, false, false, 2, 0x0201⟩ ⟨0, 8, false, 1, 0⟩ 7).mid
        = (⟨5, false, false, 2, 0x0201⟩ : CANMessage).mid ∧
      (set_signal_frame ⟨5, false, false, 2, 0x0201⟩ ⟨0, 8, false, 1, 0⟩ 7).extended
        = (⟨5, false, false, 2, 0x0201⟩ : CANMessage).extended ∧
      (set_signal_frame ⟨5, false, false, 2, 0x0201⟩ ⟨0, 8, false, 1, 0⟩ 7).dlc
        = (⟨5, false, false, 2, 0x0201⟩ : CANMessage).dlc ∧
      (set_signal_frame ⟨5, false, false, 2, 0x0201⟩ ⟨0, 8, false, 1, 0⟩ 7).rtr
        = (⟨5, false, false, 2, 0x0201⟩ : CANMessage).rtr) :=
  C9_invariant_amended 5 (some [1, 2]) false none ⟨5, false, false, 2, 0x0201⟩
    ⟨2, false, false, 1, 0x22⟩ "t0021122".toList 3 0xff ⟨0, 8, false, 1, 0⟩ 7 rfl

/-- Claim C8, counterexample: the claim says an encoded remote frame
carries no payload characters after the length digit, but `to_string`
runs the payload loop for RTR frames too: the standard RTR frame id 3,
dlc 7 encodes with seven "00" pairs appended. -/
theorem C8_rtr_frames_carry_payload :
    (can_init 3 none true (some 7)).map to_string = .ok "r003700000000000000" ∧
    ("r003700000000000000" : String) ≠ "r0037" :=
  ⟨rfl, by decide⟩

/-- Claim C8 (corrected): for a remote frame (with the zero packed
payload the constructors give RTR frames, and dlc ≤ 8) `to_string`
emits the type character, the identifier digits (8 when extended else
3), one dlc digit, and then — unlike the claim — `dlc` payload hex
pairs, each "00". -/
theorem C8_rtr_encoding_amended (f : CANMessage) (hr : f.rtr = true)
    (hd : f.data = 0) (hl : f.dlc ≤ 8) :
    to_string f = (if f.extended then "R" ++ hexPad f.mid 8
        else "r" ++ hexPad f.mid 3)
      ++ hexPad f.dlc 1 ++ String.join (List.replicate f.dlc "00") := by
  obtain ⟨mid, rtr, ext, dlc, d⟩ := f
  simp only at hr hd hl
  subst hr
  subst hd
  unfold to_string
  simp only
  have hmin : min dlc 8 = dlc := Nat.min_eq_left hl
  rw [hmin]
  have hmap : (List.range dlc).map (fun i => hexPad (byte_at 0 i) 2)
      = List.replicate dlc "00" := by
    refine List.eq_replicate.2 ⟨by simp, ?_⟩
    intro b hb
    simp only [List.mem_map, List.mem_range] at hb
    obtain ⟨i, _, rfl⟩ := hb
    have hz : byte_at 0 i = 0 := by
      simp [byte_at]
    rw [hz]
    rfl
  rw [hmap]
  cases ext <;> simp

/-- Claim C8, witness: the amended encoding theorem at the concrete
standard RTR frame id 3, dlc 7. -/
theorem C8_rtr_encoding_amended_witness :
    to_string ⟨3, true, false, 7, 0⟩
      = (if (⟨3, true, false, 7, 0⟩ : CANMessage).extended
          then "R" ++ hexPad (3 : ℕ) 8 else "r" ++ hexPad (3 : ℕ) 3)
        ++ hexPad (7 : ℕ) 1 ++ String.join (List.replicate 7 "00") :=
  C8_rtr_encoding_amended ⟨3, true, false, 7, 0⟩ rfl rfl (by decide)

/-- Claim C6 (code bug): the capacity validation for two chains uses
`and` where the documented 2/4 bank capacities require `or`
(`if (len(fc[0])>2) and (len(fc[1])>4)`), so two chains of 3 and 3
filters — bank 0 over its documented 2-filter capacity — are accepted
and all register writes are performed instead of raising; the error
only fires when both banks overflow, and the one-chain and
too-many-chain checks behave as claimed. -/
theorem C6_capacity_check_uses_and :
    set_filter [chain_c3a, chain_c3b] = .ok
      [(0x20, 1), (0x21, 1), (0x22, 1), (0x23, 1),
       (0x00, 10), (0x01, 0), (0x02, 0), (0x03, 0),
       (0x04, 21), (0x05, 0), (0x06, 0), (0x07, 0),
       (0x24, 2), (0x25, 2), (0x26, 2), (0x27, 2),
       (0x08, 20), (0x09, 0), (0x0a, 0), (0x0b, 0),
       (0x10, 21), (0x11, 0), (0x12, 0), (0x13, 0),
       (0x14, 22), (0x15, 0), (0x16, 0), (0x17, 0),
       (0x18, 22), (0x19, 0), (0x1a, 0), (0x1b, 0)] ∧
    chain_c3a.filters.length = 3 ∧ (2 : ℕ) < 3 ∧
    set_filter [chain_f5] = .error "USBtinException: filter chain too long" ∧
    set_filter [chain_f5, chain_f5]
      = .error "USBtinException: filter chain too long" ∧
    set_filter [chain_c3a, chain_c3b, chain_c3a]
      = .error "USBtinException: too many filter chains" :=
  ⟨rfl, rfl, by decide, rfl, rfl, rfl⟩

/-- Claim C4, counterexample: with chains A (2 filters) and B
(2 filters), at bank 0 slot 1 the code writes B's second filter
[0xB1, 4, 4, 4] although chain A is not yet exhausted (the claim
requires A's second filter [0xA1, 2, 2, 2]), because `fcidx` advances
after every filter write; and at bank 1 slots 2 and 3 the code rewrites
the stale previous registers [0xB1, 4, 4, 4] although chain B has only
2 filters (the claim requires an all-zero register group). -/
theorem C4_slot_walk_counterexample :
    set_filter [chain_a2, chain_b2] = .ok
      [(0x20, 1), (0x21, 2), (0x22, 3), (0x23, 4),
       (0x00, 0xA0), (0x01, 1), (0x02, 1), (0x03, 1),
       (0x04, 0xB1), (0x05, 4), (0x06, 4), (0x07, 4),
       (0x24, 5), (0x25, 6), (0x26, 7), (0x27, 8),
       (0x08, 0xB0), (0x09, 3), (0x0a, 3), (0x0b, 3),
       (0x10, 0xB1), (0x11, 4), (0x12, 4), (0x13, 4),
       (0x14, 0xB1), (0x15, 4), (0x16, 4), (0x17, 4),
       (0x18, 0xB1), (0x19, 4), (0x1a, 4), (0x1b, 4)] ∧
    chain_a2.filters = [[0xA0, 1, 1, 1], [0xA1, 2, 2, 2]] ∧
    chain_b2.filters = [[0xB0, 3, 3, 3], [0xB1, 4, 4, 4]] ∧
    ([0xB1, 4, 4, 4] : List ℕ) ≠ [0xA1, 2, 2, 2] ∧
    ([0xB1, 4, 4, 4] : List ℕ) ≠ [0, 0, 0, 0] :=
  ⟨rfl, rfl, rfl, by decide, by decide⟩

/-! ### Filter walk evaluation lemmas -/

theorem ebind_ok {ε α β : Type} (a : α) (k : α → Except ε β) :
    (Except.ok a >>= k) = k a := rfl

theorem pick_length (fl : List (List ℕ)) (i : ℕ) (prev : List ℕ)
    (hf : ∀ r ∈ fl, r.length = 4) (hp : prev.length = 4) :
    (pick fl i prev).length = 4 := by
  unfold pick
  cases hg : fl.get? i with
  | some r => exact hf r (List.get?_mem hg)
  | none => exact hp

theorem reg_group_writes_ok (base : ℕ) (regs : List ℕ) (h4 : regs.length = 4) :
    reg_group_writes base regs = .ok (group base regs) := by
  match regs, h4 with
  | [r0, r1, r2, r3], _ => rfl

theorem write_filter_ok (fid base : ℕ) (regs : List ℕ)
    (hb : mcp_startregister.get? fid = some base) (h4 : regs.length = 4) :
    write_mcp_filter_registers fid regs = .ok (group base regs) := by
  unfold write_mcp_filter_registers
  rw [hb]
  exact reg_group_writes_ok _ _ h4

/-- one step of the slot loop, evaluated. -/
theorem walk_slots_step (fc : List FilterChain) (i : ℕ) (rest : List ℕ)
    (registers : List ℕ) (fcidx filterid fcidx' : ℕ) (chain : FilterChain)
    (base : ℕ) (out : List (ℕ × ℕ) × ℕ × ℕ)
    (hc : chain_at fc fcidx = .ok chain)
    (h4 : (pick chain.filters i registers).length = 4)
    (hb : mcp_startregister.get? filterid = some base)
    (hidx : fcidx' = if fcidx < fc.length - 1 then fcidx + 1 else fcidx)
    (hrec : walk_slots fc rest (pick chain.filters i registers) fcidx'
      (filterid + 1) = .ok out) :
    walk_slots fc (i :: rest) registers fcidx filterid
      = .ok (group base (pick chain.filters i registers) ++ out.1, out.2) := by
  have hw := write_filter_ok filterid base _ hb h4
  subst hidx
  simp only [walk_slots, hc, hw, hrec, ebind_ok]

/-- one step of the channel loop, evaluated. -/
theorem walk_channels_step (fc : List FilterChain) (channel : ℕ)
    (rest : List ℕ) (fcidx filterid : ℕ) (chain : FilterChain)
    (slots_out : List (ℕ × ℕ) × ℕ × ℕ) (rest_out : List (ℕ × ℕ))
    (hc : chain_at fc fcidx = .ok chain)
    (h4 : chain.mask.length = 4)
    (hs : walk_slots fc (List.range (2 * (1 + channel))) [0, 0, 0, 0]
      fcidx filterid = .ok slots_out)
    (hr : walk_channels fc rest slots_out.2.1 slots_out.2.2 = .ok rest_out) :
    walk_channels fc (channel :: rest) fcidx filterid
      = .ok (group (0x20 + channel * 4) chain.mask ++ slots_out.1 ++ rest_out) := by
  have hm : write_mcp_filter_mask_registers channel chain.mask
      = .ok (group (0x20 + channel * 4) chain.mask) := reg_group_writes_ok _ _ h4
  simp only [walk_channels, hc, hm, hs, hr, ebind_ok]

/-- Claim C4 (corrected): for two chains within the accepted counts
(`a` with no more filters than `b`, and not both banks over capacity),
the walk writes bank 0's mask from chain A and bank 1's mask from
chain B, and fills the six filter slots with: A's first filter (or
zeros), then — because `fcidx` advances after every filter write while
a further chain exists — B's second filter when present (else the slot
0 registers again), and bank 1 with B's filters where present, each
missing slot repeating the previously written register group (all-zero
only when B has no filters), instead of the claimed zero-padding and
advance-on-exhaustion. -/
theorem C4_slot_walk_amended (a b : FilterChain)
    (hma : a.mask.length = 4) (hmb : b.mask.length = 4)
    (hfa : ∀ r ∈ a.filters, r.length = 4) (hfb : ∀ r ∈ b.filters, r.length = 4)
    (hab : a.filters.length ≤ b.filters.length)
    (hcap : ¬(2 < a.filters.length ∧ 4 < b.filters.length)) :
    set_filter [a, b] = .ok
      (group 0x20 a.mask ++ group 0x00 (slot0 a) ++ group 0x04 (slot1 a b)
        ++ group 0x24 b.mask ++ group 0x08 (bslot b 0) ++ group 0x10 (bslot b 1)
        ++ group 0x14 (bslot b 2) ++ group 0x18 (bslot b 3)) := by
  have hswap : ¬ b.filters.length < a.filters.length := not_lt.2 hab
  have hc0 : chain_at [a, b] 0 = .ok a := rfl
  have hc1 : chain_at [a, b] 1 = .ok b := rfl
  have h40 : (pick a.filters 0 [0, 0, 0, 0]).length = 4 :=
    pick_length _ _ _ hfa rfl
  have h41 : (pick b.filters 1 (pick a.filters 0 [0, 0, 0, 0])).length = 4 :=
    pick_length _ _ _ hfb h40
  have hbl0 : (pick b.filters 0 [0, 0, 0, 0]).length = 4 :=
    pick_length _ _ _ hfb rfl
  have hbl1 : (pick b.filters 1 (pick b.filters 0 [0, 0, 0, 0])).length = 4 :=
    pick_length _ _ _ hfb hbl0
  have hbl2 : (pick b.filters 2
      (pick b.filters 1 (pick b.filters 0 [0, 0, 0, 0]))).length = 4 :=
    pick_length _ _ _ hfb hbl1
  have hbl3 : (pick b.filters 3 (pick b.filters 2
      (pick b.filters 1 (pick b.filters 0 [0, 0, 0, 0])))).length = 4 :=
    pick_length _ _ _ hfb hbl2
  -- bank 0 slots (fcidx advances to 1 after the first write)
  have hs01 : walk_slots [a, b] [1] (pick a.filters 0 [0, 0, 0, 0]) 1 1
      = .ok (group 0x04 (pick b.filters 1 (pick a.filters 0 [0, 0, 0, 0]))
          ++ [], 1, 2) :=
    walk_slots_step [a, b] 1 [] _ 1 1 1 b 0x04 ([], 1, 2) hc1 h41 rfl rfl rfl
  have hs00 : walk_slots [a, b] [0, 1] [0, 0, 0, 0] 0 0
      = .ok (group 0x00 (pick a.filters 0 [0, 0, 0, 0])
          ++ (group 0x04 (pick b.filters 1 (pick a.filters 0 [0, 0, 0, 0]))
            ++ []), 1, 2) :=
    walk_slots_step [a, b] 0 [1] [0, 0, 0, 0] 0 0 1 a 0x00
      (group 0x04 (pick b.filters 1 (pick a.filters 0 [0, 0, 0, 0])) ++ [], 1, 2)
      hc0 h40 rfl rfl hs01
  have hbank0 : walk_slots [a, b] (List.range (2 * (1 + 0))) [0, 0, 0, 0] 0 0
      = .ok (group 0x00 (slot0 a) ++ (group 0x04 (slot1 a b) ++ []), 1, 2) := by
    rw [show List.range (2 * (1 + 0)) = [0, 1] from rfl]
    exact hs00
  -- bank 1 slots (fcidx stays 1)
  have hs13 : walk_slots [a, b] [3] (pick b.filters 2
        (pick b.filters 1 (pick b.filters 0 [0, 0, 0, 0]))) 1 5
      = .ok (group 0x18 (pick b.filters 3 (pick b.filters 2
          (pick b.filters 1 (pick b.filters 0 [0, 0, 0, 0])))) ++ [], 1, 6) :=
    walk_slots_step [a, b] 3 [] _ 1 5 1 b 0x18 ([], 1, 6) hc1 hbl3 rfl rfl rfl
  have hs12 : walk_slots [a, b] [2, 3]
        (pick b.filters 1 (pick b.filters 0 [0, 0, 0, 0])) 1 4
      = .ok (group 0x14 (pick b.filters 2
            (pick b.filters 1 (pick b.filters 0 [0, 0, 0, 0])))
          ++ (group 0x18 (pick b.filters 3 (pick b.filters 2
            (pick b.filters 1 (pick b.filters 0 [0, 0, 0, 0])))) ++ []), 1, 6) :=
    walk_slots_step [a, b] 2 [3] _ 1 4 1 b 0x14 _ hc1 hbl2 rfl rfl hs13
  have hs11 : walk_slots [a, b] [1, 2, 3] (pick b.filters 0 [0, 0, 0, 0]) 1 3
      = .ok (group 0x10 (pick b.filters 1 (pick b.filters 0 [0, 0, 0, 0]))
          ++ (group 0x14 (pick b.filters 2
              (pick b.filters 1 (pick b.filters 0 [0, 0, 0, 0])))
            ++ (group 0x18 (pick b.filters 3 (pick b.filters 2
              (pick b.filters 1 (pick b.filters 0 [0, 0, 0, 0])))) ++ [])), 1, 6) :=
    walk_slots_step [a, b] 1 [2, 3] _ 1 3 1 b 0x10 _ hc1 hbl1 rfl rfl hs12
  have hs10 : walk_slots [a, b] [0, 1, 2, 3] [0, 0, 0, 0] 1 2
      = .ok (group 0x08 (pick b.filters 0 [0, 0, 0, 0])
          ++ (group 0x10 (pick b.filters 1 (pick b.filters 0 [0, 0, 0, 0]))
            ++ (group 0x14 (pick b.filters 2
                (pick b.filters 1 (pick b.filters 0 [0, 0, 0, 0])))
              ++ (group 0x18 (pick b.filters 3 (pick b.filters 2
                (pick b.filters 1 (pick b.filters 0 [0, 0, 0, 0])))) ++ []))), 1, 6) :=
    walk_slots_step [a, b] 0 [1, 2, 3] [0, 0, 0, 0] 1 2 1 b 0x08 _
      hc1 hbl0 rfl rfl hs11
  have hbank1 : walk_slots [a, b] (List.range (2 * (1 + 1))) [0, 0, 0, 0] 1 2
      = .ok (group 0x08 (bslot b 0) ++ (group 0x10 (bslot b 1)
          ++ (group 0x14 (bslot b 2) ++ (group 0x18 (bslot b 3) ++ []))), 1, 6) := by
    rw [show List.range (2 * (1 + 1)) = [0, 1, 2, 3] from rfl]
    exact hs10
  -- the two channels
  have hch1 : walk_channels [a, b] [1] 1 2
      = .ok (group (0x20 + 1 * 4) b.mask ++ (group 0x08 (bslot b 0)
          ++ (group 0x10 (bslot b 1) ++ (group 0x14 (bslot b 2)
            ++ (group 0x18 (bslot b 3) ++ [])))) ++ []) :=
    walk_channels_step [a, b] 1 [] 1 2 b _ [] hc1 hmb hbank1 rfl
  have hch0 : walk_channels [a, b] [0, 1] 0 0
      = .ok (group (0x20 + 0 * 4) a.mask
          ++ (group 0x00 (slot0 a) ++ (group 0x04 (slot1 a b) ++ []))
          ++ (group (0x20 + 1 * 4) b.mask ++ (group 0x08 (bslot b 0)
            ++ (group 0x10 (bslot b 1) ++ (group 0x14 (bslot b 2)
              ++ (group 0x18 (bslot b 3) ++ [])))) ++ [])) :=
    walk_channels_step [a, b] 0 [1] 0 0 a
      (group 0x00 (slot0 a) ++ (group 0x04 (slot1 a b) ++ []), 1, 2) _
      hc0 hma hbank0 hch1
  -- assemble set_filter
  have hsf : set_filter [a, b] = walk_channels [a, b] [0, 1] 0 0 := by
    show (if 2 < (if b.filters.length < a.filters.length then b else a).filters.length
          ∧ 4 < (if b.filters.length < a.filters.length then a else b).filters.length
        then Except.error "USBtinException: filter chain too long"
        else walk_channels
          [if b.filters.length < a.filters.length then b else a,
           if b.filters.length < a.filters.length then a else b] [0, 1] 0 0)
      = walk_channels [a, b] [0, 1] 0 0
    rw [if_neg hswap, if_neg hswap, if_neg hcap]
  rw [hsf, hch0]
  congr 1

/-- Claim C4, witness: the amended walk theorem instantiated at the
concrete chains A (2 filters) and B (2 filters) of the counterexample
run. -/
theorem C4_slot_walk_amended_witness :
    set_filter [chain_a2, chain_b2] = .ok
      (group 0x20 chain_a2.mask ++ group 0x00 (slot0 chain_a2)
        ++ group 0x04 (slot1 chain_a2 chain_b2) ++ group 0x24 chain_b2.mask
        ++ group 0x08 (bslot chain_b2 0) ++ group 0x10 (bslot chain_b2 1)
        ++ group 0x14 (bslot chain_b2 2) ++ group 0x18 (bslot chain_b2 3)) :=
  C4_slot_walk_amended chain_a2 chain_b2 rfl rfl
    (by decide) (by decide) (by decide) (by decide)

/-! ### Bit-timing search lemmas -/

/-- inductive step: the loop body preserves the search invariant when
the candidates arrive in increasing order. -/
theorem bt_step_inv (xd : ℚ) (processed : List ℕ) (st : ℕ × ℚ × ℚ) (x : ℕ)
    (hx : x ≠ 0) (hprev : ∀ y ∈ processed, y < x)
    (inv : bt_inv xd processed st) :
    bt_inv xd (processed ++ [x]) (bt_step xd st x) := by
  obtain ⟨hne, hmem, hdiff, hbrp, hmin, hlast⟩ := inv
  unfold bt_step
  dsimp only
  by_cases hc : st.1 = 0 ∨ py_abs (xd - ↑x * brp_candidate xd x) ≤ st.2.1
  · rw [if_pos hc]
    have hle : py_abs (xd - ↑x * brp_candidate xd x) ≤ st.2.1 :=
      hc.resolve_left hne
    refine ⟨hx, List.mem_append_right _ (List.mem_singleton.2 rfl), rfl, rfl,
      ?_, ?_⟩
    · intro y hy
      rcases List.mem_append.1 hy with hy | hy
      · exact le_trans hle (hmin y hy)
      · rw [List.mem_singleton.1 hy]
        exact le_refl _
    · intro y hy hlt
      rcases List.mem_append.1 hy with hy | hy
      · exact absurd hlt (by have := hprev y hy; omega)
      · rw [List.mem_singleton.1 hy] at hlt
        exact absurd hlt (lt_irrefl x)
  · rw [if_neg hc]
    push_neg at hc
    refine ⟨hne, List.mem_append_left _ hmem, hdiff, hbrp, ?_, ?_⟩
    · intro y hy
      rcases List.mem_append.1 hy with hy | hy
      · exact hmin y hy
      · rw [List.mem_singleton.1 hy]
        exact le_of_lt hc.2
    · intro y hy hlt
      rcases List.mem_append.1 hy with hy | hy
      · exact hlast y hy hlt
      · rw [List.mem_singleton.1 hy]
        exact hc.2

/-- the whole fold preserves the invariant. -/
theorem bt_foldl_inv (xd : ℚ) (l : List ℕ) :
    ∀ (processed : List ℕ) (st : ℕ × ℚ × ℚ),
    (∀ z ∈ l, z ≠ 0) → (∀ y ∈ processed, ∀ z ∈ l, y < z) →
    List.Pairwise (· < ·) l → bt_inv xd processed st →
    bt_inv xd (processed ++ l) (l.foldl (bt_step xd) st) := by
  induction l with
  | nil =>
    intro processed st _ _ _ inv
    simpa using inv
  | cons z zs ih =>
    intro processed st hz hy hp inv
    rw [List.foldl_cons,
      show processed ++ z :: zs = (processed ++ [z]) ++ zs by simp]
    apply ih (processed ++ [z]) (bt_step xd st z)
      (fun w hw => hz w (List.mem_cons_of_mem z hw))
      ?_ ((List.pairwise_cons.1 hp).2)
      (bt_step_inv xd processed st z (hz z (List.mem_cons_self z zs))
        (fun y hyp => hy y hyp z (List.mem_cons_self z zs)) inv)
    intro y hymem w hw
    rcases List.mem_append.1 hymem with hym | hym
    · exact hy y hym w (List.mem_cons_of_mem z hw)
    · rw [List.mem_singleton.1 hym]
      exact (List.pairwise_cons.1 hp).1 w hw

/-- Claim C5, counterexample: the claim says equal deviations resolve
to the first (smallest-length) candidate; at baudrate 75000
(xdesired = 24000000/75000 = 320, not a preset) lengths 16 and 20 both
achieve deviation 0, and the `diff <= diffopt` comparison makes the
search select length 20 — the later candidate, not the first. -/
theorem C5_tie_goes_to_last_candidate :
    bt_search 320 = (20, 0, 7) ∧
    cand_diff 320 16 = 0 ∧ cand_diff 320 20 = 0 ∧
    (16 : ℕ) ∈ bt_candidates ∧ (16 : ℕ) < 20 ∧
    (24000000 : ℚ) / 75000 = 320 := by
  have b11 : brp_candidate 320 11 = 30 := by norm_num [brp_candidate, qmod]
  have b12 : brp_candidate 320 12 = 26 := by norm_num [brp_candidate, qmod]
  have b13 : brp_candidate 320 13 = 24 := by norm_num [brp_candidate, qmod]
  have b14 : brp_candidate 320 14 = 22 := by norm_num [brp_candidate, qmod]
  have b15 : brp_candidate 320 15 = 22 := by norm_num [brp_candidate, qmod]
  have b16 : brp_candidate 320 16 = 20 := by norm_num [brp_candidate, qmod]
  have b17 : brp_candidate 320 17 = 18 := by norm_num [brp_candidate, qmod]
  have b18 : brp_candidate 320 18 = 18 := by norm_num [brp_candidate, qmod]
  have b19 : brp_candidate 320 19 = 16 := by norm_num [brp_candidate, qmod]
  have b20 : brp_candidate 320 20 = 16 := by norm_num [brp_candidate, qmod]
  have b21 : brp_candidate 320 21 = 16 := by norm_num [brp_candidate, qmod]
  have b22 : brp_candidate 320 22 = 14 := by norm_num [brp_candidate, qmod]
  have b23 : brp_candidate 320 23 = 14 := by norm_num [brp_candidate, qmod]
  have s11 : bt_step 320 (0, 0, 0) 11 = (11, 10, 14) := by
    rw [bt_step, b11]; norm_num [py_abs]
  have s12 : bt_step 320 (11, 10, 14) 12 = (12, 8, 12) := by
    rw [bt_step, b12]; norm_num [py_abs]
  have s13 : bt_step 320 (12, 8, 12) 13 = (13, 8, 11) := by
    rw [bt_step, b13]; norm_num [py_abs]
  have s14 : bt_step 320 (13, 8, 11) 14 = (13, 8, 11) := by
    rw [bt_step, b14]; norm_num [py_abs]
  have s15 : bt_step 320 (13, 8, 11) 15 = (13, 8, 11) := by
    rw [bt_step, b15]; norm_num [py_abs]
  have s16 : bt_step 320 (13, 8, 11) 16 = (16, 0, 9) := by
    rw [bt_step, b16]; norm_num [py_abs]
  have s17 : bt_step 320 (16, 0, 9) 17 = (16, 0, 9) := by
    rw [bt_step, b17]; norm_num [py_abs]
  have s18 : bt_step 320 (16, 0, 9) 18 = (16, 0, 9) := by
    rw [bt_step, b18]; norm_num [py_abs]
  have s19 : bt_step 320 (16, 0, 9) 19 = (16, 0, 9) := by
    rw [bt_step, b19]; norm_num [py_abs]
  have s20 : bt_step 320 (16, 0, 9) 20 = (20, 0, 7) := by
    rw [bt_step, b20]; norm_num [py_abs]
  have s21 : bt_step 320 (20, 0, 7) 21 = (20, 0, 7) := by
    rw [bt_step, b21]; norm_num [py_abs]
  have s22 : bt_step 320 (20, 0, 7) 22 = (20, 0, 7) := by
    rw [bt_step, b22]; norm_num [py_abs]
  have s23 : bt_step 320 (20, 0, 7) 23 = (20, 0, 7) := by
    rw [bt_step, b23]; norm_num [py_abs]
  refine ⟨?_, ?_, ?_, by decide, by decide, by norm_num⟩
  · show bt_candidates.foldl (bt_step 320) (0, 0, 0) = (20, 0, 7)
    rw [show bt_candidates = [11, 12, 13, 14, 15, 16, 17, 18, 19, 20, 21, 22, 23]
      from rfl]
    simp only [List.foldl_cons, List.foldl_nil]
    rw [s11, s12, s13, s14, s15, s16, s17, s18, s19, s20, s21, s22, s23]
  · rw [cand_diff, b16]; norm_num [py_abs]
  · rw [cand_diff, b20]; norm_num [py_abs]

/-- Claim C5 (corrected): the selected `(length, prescaler)` pair does
minimize the absolute deviation over all candidates 11..23, the stored
deviation and prescaler belong to the selected length — but on equal
deviation the `diff <= diffopt` update makes the LAST (largest-length)
candidate win: every candidate strictly larger than the winner has a
strictly larger deviation. -/
theorem C5_search_minimizes_last_tie (xd : ℚ) (y : ℕ) (hy : y ∈ bt_candidates) :
    (bt_search xd).1 ∈ bt_candidates ∧
    (bt_search xd).2.1 = cand_diff xd (bt_search xd).1 ∧
    (bt_search xd).2.2 = brp_candidate xd (bt_search xd).1 / 2 - 1 ∧
    (bt_search xd).2.1 ≤ cand_diff xd y ∧
    ((bt_search xd).1 < y → (bt_search xd).2.1 < cand_diff xd y) := by
  have h1 : bt_step xd (0, 0, 0) 11
      = (11, cand_diff xd 11, brp_candidate xd 11 / 2 - 1) := by
    rw [bt_step]
    dsimp only
    rw [if_pos (Or.inl rfl)]
    rfl
  have hsearch : bt_search xd = (List.range' 12 12).foldl (bt_step xd)
      (11, cand_diff xd 11, brp_candidate xd 11 / 2 - 1) := by
    rw [bt_search, bt_candidates,
      show List.range' 11 13 = 11 :: List.range' 12 12 from rfl,
      List.foldl_cons, h1]
  have hinv1 : bt_inv xd [11]
      (11, cand_diff xd 11, brp_candidate xd 11 / 2 - 1) := by
    refine ⟨by norm_num, List.mem_singleton.2 rfl, rfl, rfl, ?_, ?_⟩
    · intro z hz
      rw [List.mem_singleton.1 hz]
    · intro z hz hlt
      rw [List.mem_singleton.1 hz] at hlt
      exact absurd hlt (lt_irrefl _)
  have hfold := bt_foldl_inv xd (List.range' 12 12) [11]
    (11, cand_diff xd 11, brp_candidate xd 11 / 2 - 1)
    (by decide) (by decide) (by decide) hinv1
  rw [show ([11] : List ℕ) ++ List.range' 12 12 = bt_candidates from rfl] at hfold
  rw [hsearch]
  obtain ⟨_, hmem, hdiff, hbrp, hmin, hlast⟩ := hfold
  exact ⟨hmem, hdiff, hbrp, hmin y hy, fun hlt => hlast y hy hlt⟩

/-- Claim C5, witness: the search property instantiated at
xdesired = 320 (baudrate 75000) and candidate 16. -/
theorem C5_search_minimizes_last_tie_witness :
    (bt_search 320).1 ∈ bt_candidates ∧
    (bt_search 320).2.1 = cand_diff 320 (bt_search 320).1 ∧
    (bt_search 320).2.2 = brp_candidate 320 (bt_search 320).1 / 2 - 1 ∧
    (bt_search 320).2.1 ≤ cand_diff 320 16 ∧
    ((bt_search 320).1 < 16 → (bt_search 320).2.1 < cand_diff 320 16) :=
  C5_search_minimizes_last_tie 320 16 (by decide)
